import Mathlib

/-!
# Verification of the echoprint-codegen streaming pipeline

A shallow embedding, in Lean 4, of the Go sources of `echoprint-codegen`:
the whitening transform (`whitening/whitening.go`), the buffered transform
sink (`dsp/dsp.go`) and the fingerprinting stage (`fingerprint` package).

Modelling conventions, fixed once for the whole development:

* Go `int16` values are `ℤ` together with the explicit wrap `wrap16`
  (reduction into `[-32768, 32767]` modulo `2^16`); every Go `int16`
  multiplication and subtraction is wrapped, exactly as the machine does.
* Go `float32` arithmetic is modelled by exact rational arithmetic over
  `ℚ`.  The float literal `0.001` is the rational `1/1000`, `alpha = 1/8`.
  Division by zero in `ℚ` yields `0` (the Lean convention); the one code
  path where the Go program divides a float by zero is flagged separately
  by an explicit reachability predicate rather than by a numeric value.
* Go's conversion `int16(f)` of a float truncates toward zero; it is
  modelled as truncation toward zero followed by `wrap16`.
* Byte streams are `List ℕ` of values `< 256`; `encoding/binary`'s
  little-endian codec for `[]int16` is embedded explicitly.
* A Go slice-index panic is modelled by `Except`: each place where the
  source can index out of range carries an explicit bound check producing
  a tagged fault value, in the order in which the Go program would hit it.
-/

namespace Echoprint

/-- Reduction of an integer into the `int16` range `[-32768, 32767]`
modulo `2^16`, the effect of Go `int16` overflow. -/
def wrap16 (z : ℤ) : ℤ :=
  (z + 32768) % 65536 - 32768

/-- Go `int16` multiplication: multiply and wrap. -/
def mul16 (a b : ℤ) : ℤ := wrap16 (a * b)

/-- Go `int16` subtraction: subtract and wrap. -/
def sub16 (a b : ℤ) : ℤ := wrap16 (a - b)

/-- Reinterpret an unsigned 16-bit value as a signed `int16`. -/
def toSigned16 (v : ℕ) : ℤ :=
  if v % 65536 < 32768 then (v % 65536 : ℤ) else (v % 65536 : ℤ) - 65536

/-- Little-endian decoding of a byte stream into `int16` samples, the
effect of `binary.Read(buf, binary.LittleEndian, data)` with
`data : []int16` of length `len(p)/2`: consecutive byte pairs become
samples, a trailing odd byte is ignored. -/
def bytesToSamples : List ℕ → List ℤ
  | lo :: hi :: rest => toSigned16 (lo + 256 * hi) :: bytesToSamples rest
  | _ => []

/-- Little-endian encoding of one `int16` sample into two bytes. -/
def sampleToBytes (s : ℤ) : List ℕ :=
  [(s % 65536).toNat % 256, (s % 65536).toNat / 256]

/-- Little-endian encoding of a sample vector back into a byte stream,
the effect of `binary.Write(o, binary.LittleEndian, out)`. -/
def samplesToBytes (l : List ℤ) : List ℕ :=
  l.flatMap sampleToBytes

/-- Truncation of a rational toward zero, the rounding Go applies when
converting a float to an integer type. -/
def ratTrunc (q : ℚ) : ℤ :=
  if 0 ≤ q then q.floor else -(-q).floor

/-- Go's `int16(f)` conversion of a float: truncate toward zero, then
reduce into the `int16` range. -/
def int16ofRat (q : ℚ) : ℤ := wrap16 (ratTrunc q)

/-! ## The whitening transform, from `whitening/whitening.go`

`Whitener.Compute` decodes the block into `int16` samples, forms a
smoothed autocorrelation vector `R`, runs Durbin's recursion to get the
`int16` coefficient vector `ai`, applies the inverse FIR filter using the
carried-over tail `X` of the previous block, saves the block's last 41
samples into `X`, and re-encodes the filtered samples. -/

/-- The LPC filter order, the constant `lpcOrder = 40` of the source. -/
def lpcOrder : ℕ := 40

/-- The autocorrelation accumulator of `Whitener.Compute` at lag `i`:
`sum += float32(data[j] * data[j-i])` for `j = i, …, blockSize-1`.  The
product `data[j] * data[j-i]` is a Go `int16` multiplication and hence
wraps; each wrapped product is an exact integer, so the float sum is an
integer and is carried in `ℤ`. -/
def autocorrSum (d : List ℤ) (i : ℕ) : ℤ :=
  (List.range' i (d.length - i)).foldl
    (fun acc j => acc + wrap16 (d.getD j 0 * d.getD (j - i) 0)) 0

/-- The autocorrelation at lag `i` as the specification states it: the
exact mathematical sum `Σ sample[j]·sample[j−i]`, with no integer
wraparound in the products.  Written from the spec's words, to be
compared with `autocorrSum`, which is written from the source. -/
def autocorrExact (d : List ℤ) (i : ℕ) : ℤ :=
  (List.range' i (d.length - i)).foldl
    (fun acc j => acc + d.getD j 0 * d.getD (j - i) 0) 0

/-- The initial content of the local vector `R`: `R[0] = 0.001`, all other
entries zero. -/
def rInit (i : ℕ) : ℚ :=
  if i = 0 then 1 / 1000 else 0

/-- The smoothed autocorrelation entry produced by
`R[i] = alpha * (sum - R[i])` with `alpha = 1/8`. -/
def rSmoothed (d : List ℤ) (i : ℕ) : ℚ :=
  (1 / 8) * ((autocorrSum d i : ℚ) - rInit i)

/-- Every float value of Durbin's recursion lies in `(1/8000)·ℤ`: the
smoothed `R[i] = (sum - rInit i)/8` has denominator `8000`, the inner sum
`Σ ai[j]·R[i-j]` has integer weights, and `E` is `R[0]` times a product
of the integers `1 - wrap16(ki²)`.  The recursion is therefore carried on
the integer numerators scaled by `8000`, exactly.  `rNum` is the scaled
`R[i]`: `8000 · rSmoothed = 1000·sum - (1 if i = 0)`. -/
def rNum (d : List ℤ) (i : ℕ) : ℤ :=
  1000 * autocorrSum d i - (if i = 0 then 1 else 0)

/-- The autocorrelation loop's result: the slice `R[0..lpcOrder]`, filled
once per block (scaled numerators). -/
def rNums (d : List ℤ) : List ℤ :=
  (List.range (lpcOrder + 1)).map (rNum d)

/-- The out-of-range slice accesses `Whitener.Compute` can attempt: the
coefficient write `ai[i]` of Durbin's recursion (the slice `ai` has
`blockSize` entries), and the negative index `data[blockSize-1-lpcOrder+i]`
of the tail-saving loop. -/
inductive WhitenFault where
  | durbinCoeff (i : ℕ)
  | saveTailNeg
  deriving DecidableEq, Repr

/-- The inner sum of Durbin's recursion at step `i`:
`sumAlphaR += float32(ai[j]) * R[i-j]` for `j = 1, …, i-1`, carried on
the scaled numerators (the weights `ai[j]` are integers, so the sum stays
in `(1/8000)·ℤ`). -/
def durbinSum (R : List ℤ) (ai : List ℤ) (i : ℕ) : ℤ :=
  (List.range' 1 (i - 1)).foldl
    (fun acc j => acc + ai.getD j 0 * R.getD (i - j) 0) 0

/-- The symmetric coefficient update of Durbin's recursion: for
`j = 1, …, i/2`, capture `aj = ai[j]` and `aimj = ai[i-j]`, then store
`ai[j] = aj - ki*aimj` and `ai[i-j] = aimj - ki*aj`, all in wrapped
`int16` arithmetic. -/
def symPass (ki : ℤ) (i : ℕ) (ai : List ℤ) : List ℤ :=
  (List.range' 1 (i / 2)).foldl
    (fun a j =>
      let aj := a.getD j 0
      let aimj := a.getD (i - j) 0
      (a.set j (sub16 aj (mul16 ki aimj))).set (i - j) (sub16 aimj (mul16 ki aj)))
    ai

/-- One step of Durbin's recursion, at index `i`, threading an `Except`
state so that a prior fault is simply propagated.  The state carries the
coefficient slice and the scaled numerator of `E`.  The step computes
`ki = int16((R[i] - sumAlphaR) / E)` — the common scale `8000` cancels in
the quotient, Go's float-to-`int16` conversion is truncation toward zero
(`Int.tdiv`) followed by the wrap — writes `ai[i] = ki` (faulting, as Go
does, when `i` is out of range for the `blockSize`-long slice `ai`), runs
the symmetric update, and continues with `E = (1 - float32(ki*ki)) * E`,
the square `ki*ki` being a wrapped `int16` product.  A zero `E` makes Go
divide by zero; the model's `tdiv _ 0 = 0` stands in for the resulting
implementation-defined value, and the event itself is flagged by
`durbinDivZero`. -/
def durbinStep (R : List ℤ) (acc : Except WhitenFault (List ℤ × ℤ)) (i : ℕ) :
    Except WhitenFault (List ℤ × ℤ) :=
  match acc with
  | .error e => .error e
  | .ok (ai, eNum) =>
    let ki := wrap16 ((R.getD i 0 - durbinSum R ai i).tdiv eNum)
    if i < ai.length then
      .ok (symPass ki i (ai.set i ki), (1 - wrap16 (ki * ki)) * eNum)
    else .error (.durbinCoeff i)

/-- Durbin's recursion as `Whitener.Compute` runs it: `ai` starts as
`blockSize` zeroes, `E` starts as `R[0]`, steps run for `i = 1, …, 40`. -/
def durbinGo (R : List ℤ) (bs : ℕ) : Except WhitenFault (List ℤ) :=
  ((List.range' 1 lpcOrder).foldl (durbinStep R)
    (.ok (List.replicate bs 0, R.getD 0 0))).map Prod.fst

/-- One output sample of the inverse FIR filter: start from `data[i]`,
subtract `ai[j] * X[lpcOrder+i-j]` for `j = i+1, …, lpcOrder` (the
carried-over tail of the previous block), then subtract
`ai[j] * data[i-j]` for `j = 1, …, min i lpcOrder`, all in wrapped
`int16` arithmetic. -/
def firOut (ai X d : List ℤ) (i : ℕ) : ℤ :=
  (List.range' 1 (min i lpcOrder)).foldl
    (fun acc j => sub16 acc (mul16 (ai.getD j 0) (d.getD (i - j) 0)))
    ((List.range' (i + 1) (lpcOrder - i)).foldl
      (fun acc j => sub16 acc (mul16 (ai.getD j 0) (X.getD (lpcOrder + i - j) 0)))
      (d.getD i 0))

/-- The whole filtered block: `out[i] = firOut i` for each sample. -/
def firAll (ai X d : List ℤ) : List ℤ :=
  (List.range d.length).map (firOut ai X d)

/-- The tail-saving loop `b.X[i] = data[blockSize-1-lpcOrder+i]` for
`i = 0, …, 40`: the new tail is the block's last 41 samples; for a block
of fewer than 41 samples the loop's first iteration indexes `data` at a
negative position, a fault. -/
def saveTail (d : List ℤ) : Except WhitenFault (List ℤ) :=
  if 41 ≤ d.length then .ok (d.drop (d.length - 41)) else .error .saveTailNeg

/-- The initial carried-over tail of `NewWhitener`: 41 zero samples. -/
def initialX : List ℤ := List.replicate 41 0

/-- The embedding of `Whitener.Compute`: decode the block, run Durbin's
recursion on the smoothed autocorrelation, apply the inverse FIR filter
against the carried tail `X`, save the new tail, re-encode.  Returns the
output byte block together with the new tail, or the first slice fault
the Go code would hit. -/
def whitenerCompute (X : List ℤ) (p : List ℕ) : Except WhitenFault (List ℕ × List ℤ) :=
  match durbinGo (rNums (bytesToSamples p)) (bytesToSamples p).length with
  | .error e => .error e
  | .ok ai =>
    match saveTail (bytesToSamples p) with
    | .error e => .error e
    | .ok Xn => .ok (samplesToBytes (firAll ai X (bytesToSamples p)), Xn)

/-- Reachability of a zero prediction error: does some step `i = 1, …, 40`
of Durbin's recursion perform its division `(R[i] - sumAlphaR) / E` with
`E = 0`?  Mirrors the recursion step for step (the coefficient updates are
those of `durbinStep`), recording whether any step was entered with
`E = 0`. -/
def durbinDivZero (R : List ℤ) (bs : ℕ) : Bool :=
  ((List.range' 1 lpcOrder).foldl
    (fun st i =>
      let ki := wrap16 ((R.getD i 0 - durbinSum R st.1 i).tdiv st.2.1)
      (symPass ki i (st.1.set i ki), (1 - wrap16 (ki * ki)) * st.2.1,
        st.2.2 || decide (st.2.1 = 0)))
    (List.replicate bs 0, R.getD 0 0, false)).2.2

/-! ## The buffered transform sink, from `dsp/dsp.go`

`dsp.Writer` buffers bytes and, on flush, passes the buffered prefix
through the pluggable `DSP.Compute` before handing it to the underlying
sink.  The sink is modelled as a response function `resp` mapping the
byte slice written to the pair (accepted count, error); each operation
also returns the trace of slices actually handed to the sink, so that
"performs no further I/O" is the trace being empty. -/

/-- Errors observable at the `dsp.Writer` boundary: `shortWrite` is
`io.ErrShortWrite`; `ioFault k` stands for an arbitrary distinct error
value returned by the underlying sink. -/
inductive GoErr where
  | ioFault (k : ℕ)
  | shortWrite
  deriving DecidableEq, Repr

/-- The mutable state of a `dsp.Writer`: the sticky error `err`, the
backing buffer `buf` (fixed length, 10000 in the source), and the count
`n` of buffered bytes. -/
structure WriterState where
  err : Option GoErr
  buf : List ℕ
  n : ℕ
  deriving DecidableEq, Repr

/-- The effect of Go's `copy(b.buf[b.n:], q)` for a slice `q` that fits:
overwrite `buf` from position `at0` with `q`. -/
def bufOverwrite (buf : List ℕ) (at0 : ℕ) (q : List ℕ) : List ℕ :=
  buf.take at0 ++ q ++ buf.drop (at0 + q.length)

/-- The embedding of `(*Writer).flush`: return the sticky error if set; do
nothing on an empty buffer; otherwise hand `dsp(buf[0:n])` to the sink,
turn a short acceptance without sink error into `io.ErrShortWrite`, and on
error shift the unaccepted remainder `buf[k:n]` to the buffer's front and
record the sticky error.  Returns the new state, the returned error, and
the trace of slices written to the sink. -/
def flushGo (dsp : List ℕ → List ℕ) (resp : List ℕ → ℕ × Option GoErr)
    (st : WriterState) : WriterState × Option GoErr × List (List ℕ) :=
  match st.err with
  | some e => (st, some e, [])
  | none =>
    if st.n = 0 then (st, none, [])
    else
      let payload := dsp (st.buf.take st.n)
      let k := (resp payload).1
      let serr := (resp payload).2
      match (if k < st.n ∧ serr = none then some GoErr.shortWrite else serr) with
      | some e =>
        (⟨some e,
          if 0 < k ∧ k < st.n
            then (st.buf.drop k).take (st.n - k) ++ st.buf.drop (st.n - k)
            else st.buf,
          st.n - k⟩, some e, [payload])
      | none => (⟨none, st.buf, 0⟩, none, [payload])

/-- The exit path of `(*Writer).Write`, after its loop: return the sticky
error if set, otherwise copy what fits into the buffer and succeed. -/
def writeExit (st : WriterState) (p : List ℕ) :
    WriterState × ℕ × Option GoErr × List (List ℕ) :=
  match st.err with
  | some e => (st, 0, some e, [])
  | none =>
    let m := min (st.buf.length - st.n) p.length
    (⟨none, bufOverwrite st.buf st.n (p.take m), st.n + m⟩, m, none, [])

/-- The embedding of `(*Writer).Write`.  The loop runs while
`len(p) > Available() && err == nil`: with an empty buffer the computed
bytes of `p` go straight to the sink (the large-write path), otherwise
what fits is copied into the buffer and a flush is attempted (its return
value discarded, as in the source).  The loop is fuelled; fuel exhaustion
(a model artifact, Go can loop forever on a sink accepting zero bytes
without error) returns with no error recorded. -/
def writeGo (dsp : List ℕ → List ℕ) (resp : List ℕ → ℕ × Option GoErr) :
    ℕ → WriterState → List ℕ → WriterState × ℕ × Option GoErr × List (List ℕ)
  | 0, st, p =>
    if st.buf.length - st.n < p.length ∧ st.err = none then (st, 0, none, [])
    else writeExit st p
  | fuel + 1, st, p =>
    if st.buf.length - st.n < p.length ∧ st.err = none then
      if st.n = 0 then
        let payload := dsp p
        let k := (resp payload).1
        let r := writeGo dsp resp fuel ⟨(resp payload).2, st.buf, st.n⟩ (p.drop k)
        (r.1, k + r.2.1, r.2.2.1, payload :: r.2.2.2)
      else
        let m := min (st.buf.length - st.n) p.length
        let f := flushGo dsp resp ⟨none, bufOverwrite st.buf st.n (p.take m), st.n + m⟩
        let r := writeGo dsp resp fuel f.1 (p.drop m)
        (r.1, m + r.2.1, r.2.2.1, f.2.2 ++ r.2.2.2)
    else writeExit st p

/-! ## The fingerprinting stage, from the `fingerprint` package

`subbandAnalysis` decomposes a sample block into an 8-band energy matrix
through the 128-tap prototype filter `c` and the 8×8 modulation matrices
`mr`/`mi` (built once from cosines and sines; their irrational entries are
kept as parameters of the embedding — none of the properties settled here
depend on their values).  `Fingerprinter.Compute` decodes the block,
spawns the code-emission task, and returns its input bytes unchanged. -/

/-- The 128-tap prototype filter `c` of the source, its float literals
read as exact decimals. -/
def cTable : List ℚ :=
  [477/1000000000, 954/1000000000, 1431/1000000000, 2384/1000000000,
   3815/1000000000, 6199/1000000000, 9060/1000000000, 13828/1000000000,
   19550/1000000000, 27657/1000000000, 37670/1000000000, 49591/1000000000,
   62943/1000000000, 76771/1000000000, 90599/1000000000, 101566/1000000000,
   -108242/1000000000, -106812/1000000000, -95367/1000000000, -69618/1000000000,
   -27180/1000000000, 34332/1000000000, 116348/1000000000, 218868/1000000000,
   339031/1000000000, 472546/1000000000, 611782/1000000000, 747204/1000000000,
   866413/1000000000, 954151/1000000000, 994205/1000000000, 971317/1000000000,
   -868797/1000000000, -674248/1000000000, -378609/1000000000, 21458/1000000000,
   522137/1000000000, 1111031/1000000000, 1766682/1000000000, 2457142/1000000000,
   3141880/1000000000, 3771782/1000000000, 4290581/1000000000, 4638195/1000000000,
   4752159/1000000000, 4573822/1000000000, 4049301/1000000000, 3134727/1000000000,
   -1800537/1000000000, -33379/1000000000, 2161503/1000000000, 4756451/1000000000,
   7703304/1000000000, 10933399/1000000000, 14358521/1000000000, 17876148/1000000000,
   21372318/1000000000, 24725437/1000000000, 27815342/1000000000, 30526638/1000000000,
   32754898/1000000000, 34412861/1000000000, 35435200/1000000000, 35780907/1000000000,
   -35435200/1000000000, -34412861/1000000000, -32754898/1000000000, -30526638/1000000000,
   -27815342/1000000000, -24725437/1000000000, -21372318/1000000000, -17876148/1000000000,
   -14358521/1000000000, -10933399/1000000000, -7703304/1000000000, -4756451/1000000000,
   -2161503/1000000000, 33379/1000000000, 1800537/1000000000, 3134727/1000000000,
   -4049301/1000000000, -4573822/1000000000, -4752159/1000000000, -4638195/1000000000,
   -4290581/1000000000, -3771782/1000000000, -3141880/1000000000, -2457142/1000000000,
   -1766682/1000000000, -1111031/1000000000, -522137/1000000000, -21458/1000000000,
   378609/1000000000, 674248/1000000000, 868797/1000000000, 971317/1000000000,
   -994205/1000000000, -954151/1000000000, -866413/1000000000, -747204/1000000000,
   -611782/1000000000, -472546/1000000000, -339031/1000000000, -218868/1000000000,
   -116348/1000000000, -34332/1000000000, 27180/1000000000, 69618/1000000000,
   95367/1000000000, 106812/1000000000, 108242/1000000000, 101566/1000000000,
   -90599/1000000000, -76771/1000000000, -62943/1000000000, -49591/1000000000,
   -37670/1000000000, -27657/1000000000, -19550/1000000000, -13828/1000000000,
   -9060/1000000000, -6199/1000000000, -3815/1000000000, -2384/1000000000,
   -1431/1000000000, -954/1000000000, -477/1000000000, 0]

/-- The frame count `numFrames := (numSamples - cLen + 1) / subbands`, a
Go `int` division (truncation toward zero). -/
def numFramesOf (numSamples : ℕ) : ℤ :=
  ((numSamples : ℤ) - 128 + 1).tdiv 8

/-- The two distinct hard failures of `subbandAnalysis`: the explicit
`panic(errors.New("No frames to compute"))` when `numFrames == 0`, and
the panic of `mat64.NewDense(8, numFrames, nil)` allocating a
negative-length backing slice when `numFrames < 0`. -/
inductive SubbandFault where
  | noFrames
  | negFrames
  deriving DecidableEq, Repr

/-- The windowed vector `z[i] = float32(samples[t*8+i]) * c[i]` for one
hop position `t`. -/
def zVec (samples : List ℤ) (t : ℕ) : List ℚ :=
  (List.range 128).map (fun i => (samples.getD (t * 8 + i) 0 : ℚ) * cTable.getD i 0)

/-- The folded vector `y[i] = Σ_{j=0}^{7} z[i + 8j]`, the source's
`y[i] = z[i]` followed by `y[i] += z[i+mCols*j]` for `j = 1, …, 7`. -/
def yVec (samples : List ℤ) (t : ℕ) : List ℚ :=
  (List.range 8).map (fun i =>
    (List.range 8).foldl (fun acc j => acc + (zVec samples t).getD (i + 8 * j) 0) 0)

/-- One band energy: `dr = Σ_j mr[i][j]·y[j]`, `di = -Σ_j mi[i][j]·y[j]`,
energy `dr·dr + di·di`. -/
def energyAt (mr mi : ℕ → ℕ → ℚ) (samples : List ℤ) (i t : ℕ) : ℚ :=
  let y := yVec samples t
  let dr := (List.range 8).foldl (fun acc j => acc + mr i j * y.getD j 0) 0
  let di := (List.range 8).foldl (fun acc j => acc - mi i j * y.getD j 0) 0
  dr * dr + di * di

/-- The embedding of `subbandAnalysis`: fail on a zero frame count (the
explicit panic), fail on a negative frame count (the allocation panic),
otherwise produce the 8 × numFrames energy matrix, band-major. -/
def subbandAnalysis (mr mi : ℕ → ℕ → ℚ) (samples : List ℤ) :
    Except SubbandFault (List (List ℚ)) :=
  let nf := numFramesOf samples.length
  if nf = 0 then .error .noFrames
  else if nf < 0 then .error .negFrames
  else .ok ((List.range 8).map (fun i =>
    (List.range nf.toNat).map (fun t => energyAt mr mi samples i t)))

/-- The embedding of `Fingerprinter.Compute`: decode the block into
samples — handed to the concurrently spawned emission task, the second
component — and return the input bytes themselves as the synchronous
result. -/
def fingerprinterCompute (p : List ℕ) : List ℕ × List ℤ :=
  (p, bytesToSamples p)

/-! ## The code-emission loop of `Fingerprinter.Compute`

The body of the spawned goroutine, lines 140–187 of the source,
parameterized over the per-band onset counters and the per-band onset
frame matrix `out` (in the source these arrive through pointers the stub
`adaptativeOnsets` never populates).  The helpers
`quantizedTimeForFrameDelta`, `quantizedTimeForFrameAbsolute` and
`hashFunc` are embedded as the source defines them: stubs returning
zero. -/

/-- The source's `quantizedTimeForFrameDelta`: a stub returning 0. -/
def quantizedTimeDelta (f : ℕ) : ℤ := 0

/-- The source's `quantizedTimeForFrameAbsolute`: a stub returning 0. -/
def quantizedTimeAbsolute (q : ℚ) : ℤ := 0

/-- The source's `hashFunc`: a stub returning the `uint32` zero value. -/
def hashFunc (t0 t1 : ℤ) (band : ℕ) : ℕ := 0

/-- A fingerprint code: quantized absolute time and 32-bit hash. -/
structure Code where
  time : ℤ
  hash : ℕ
  deriving DecidableEq, Repr

/-- Go's `uint(f)` conversion of a float difference, truncation toward
zero (negative differences are implementation-defined in Go and mapped
to 0 here; they never arise in the properties settled below). -/
def uintOfRat (q : ℚ) : ℕ := (ratTrunc q).toNat

/-- The value of `nhashes` after the two conditionals: 6, lowered to 3
for the fourth-from-last onset and to 1 for the third-from-last (the
comparisons are Go `int` comparisons, hence over `ℤ`). -/
def nhashesFor (count onset : ℕ) : ℕ :=
  if (onset : ℤ) = (count : ℤ) - 3 then 1
  else if (onset : ℤ) = (count : ℤ) - 4 then 3
  else 6

/-- The six pair slots `(p[0][k], p[1][k])` after the fills: slot 0 is
always written; slots 1–2 only when `nhashes > 1`; slots 3–5 only when
`nhashes > 3`; unwritten slots keep their zero initialization. -/
def pairSlots (out : ℕ → ℕ → ℚ) (band onset nh : ℕ) : List (ℕ × ℕ) :=
  let d := fun a b => uintOfRat (out band (onset + b) - out band (onset + a))
  [(d 0 1, d 1 2),
   if 1 < nh then (d 0 1, d 1 3) else (0, 0),
   if 1 < nh then (d 0 2, d 2 3) else (0, 0),
   if 3 < nh then (d 0 1, d 1 4) else (0, 0),
   if 3 < nh then (d 0 2, d 2 4) else (0, 0),
   if 3 < nh then (d 0 3, d 3 4) else (0, 0)]

/-- The number of pair slots the fills actually write for one onset:
`nhashes` of them. -/
def filledPairCount (count onset : ℕ) : ℕ := nhashesFor count onset

/-- The inner `for k := 0; k < 6; k++` emission for one onset: one code
per slot, from the quantized deltas and the band index. -/
def codesForOnset (out : ℕ → ℕ → ℚ) (band onset count : ℕ) : List Code :=
  let ps := pairSlots out band onset (nhashesFor count onset)
  (List.range 6).map (fun k =>
    { time := quantizedTimeAbsolute (out band onset),
      hash := hashFunc (quantizedTimeDelta (ps.getD k (0, 0)).1)
        (quantizedTimeDelta (ps.getD k (0, 0)).2) band })

/-- The onset loop `for onset := 0; onset < int(count-2); onset++` of one
band: each covered onset contributes its emitted codes in order. -/
def onsetCodes (out : ℕ → ℕ → ℚ) (band count : ℕ) : List Code :=
  (List.range (count - 2)).flatMap (fun onset => codesForOnset out band onset count)

/-- The per-band emission: codes are produced only under the guard
`counter[band] > 2`, through the onset loop. -/
def bandCodes (counter : ℕ → ℕ) (out : ℕ → ℕ → ℚ) (band : ℕ) : List Code :=
  if 2 < counter band then onsetCodes out band (counter band) else []

/-- The whole emission task, the band loop
`for band := 0; band < subbands; band++`: all eight bands in order. -/
def emissionAll (counter : ℕ → ℕ) (out : ℕ → ℕ → ℚ) : List Code :=
  (List.range 8).flatMap (bandCodes counter out)

/-- A decidable equality for `Except` results, by constructor and payload. -/
instance {ε α : Type _} [DecidableEq ε] [DecidableEq α] : DecidableEq (Except ε α) := fun x y =>
  match x, y with
  | .error a, .error b =>
    if h : a = b then .isTrue (by rw [h]) else .isFalse (fun hc => h (by cases hc; rfl))
  | .ok a, .ok b =>
    if h : a = b then .isTrue (by rw [h]) else .isFalse (fun hc => h (by cases hc; rfl))
  | .error _, .ok _ => .isFalse (fun hc => by cases hc)
  | .ok _, .error _ => .isFalse (fun hc => by cases hc)

/-- A two-sample block on which the autocorrelation products overflow
`int16`: `256·256 = 65536` wraps to `0`. -/
def c6Samples : List ℤ := [256, 256]

/-- A 41-sample block driving the first reflection coefficient to exactly
`1`: the wrapped square `2500·2500` shrinks the lag-0 sum to `24180`
while the lag-1 sum is `25000`, so `k₁ = int16(R[1]/E) = 1` and the
update `E = (1 - 1)·E` zeroes the prediction error. -/
def c5Samples : List ℤ := 10 :: 2500 :: List.replicate 39 0

/-- The byte encoding of `c5Samples`. -/
def c5Bytes : List ℕ := samplesToBytes c5Samples

/-- First block of the whitening-continuity counterexample: 40 zero
samples then `182` (whose square wraps negative), 82 bytes. -/
def c1BlockA : List ℕ := samplesToBytes (List.replicate 40 0 ++ [182])

/-- Second block of the whitening-continuity counterexample: `180` then
40 zero samples, 82 bytes. -/
def c1BlockB : List ℕ := samplesToBytes (180 :: List.replicate 40 0)

/-- The output bytes of whitening a stream in one `Compute` call on a
fresh `Whitener` (`none` if the call faults). -/
def singleOutput (p : List ℕ) : Option (List ℕ) :=
  (whitenerCompute initialX p).toOption.map Prod.fst

/-- The output bytes of whitening a stream split into two sequential
blocks through one stateful `Whitener`: the tail `X` saved by the first
call is carried into the second, and the two output blocks are
concatenated (`none` if either call faults). -/
def splitOutput (p1 p2 : List ℕ) : Option (List ℕ) :=
  match whitenerCompute initialX p1 with
  | .error _ => none
  | .ok (o1, X1) =>
    match whitenerCompute X1 p2 with
    | .error _ => none
    | .ok (o2, _) => some (o1 ++ o2)

/-- The coefficient vector Durbin's recursion computes for a block
(empty if the recursion faults). -/
def durbinOf (p : List ℕ) : List ℤ :=
  (durbinGo (rNums (bytesToSamples p)) (bytesToSamples p).length).toOption.getD []

/-- A coefficient vector that is identically zero — the case in which the
inverse FIR filter degenerates to the identity. -/
abbrev zeroCoeffs (l : List ℤ) : Prop := ∀ x ∈ l, x = 0


/-- A concrete onset-counter: five onsets in band 0, none elsewhere. -/
def c8Counter : ℕ → ℕ := fun b => if b = 0 then 5 else 0

/-- A concrete onset-time matrix: all zero. -/
def c8Out : ℕ → ℕ → ℚ := fun _ _ => 0


/-- A writer state with two buffered bytes awaiting flush. -/
def c2St : WriterState := ⟨none, [5, 6], 1⟩

/-- A sink that rejects every write with a distinct I/O error. -/
def c2Resp : List ℕ → ℕ × Option GoErr := fun _ => (0, some (.ioFault 7))

/-- The writer state after its first failed operation: the error is
recorded. -/
def c2StErr : WriterState := ⟨some (.ioFault 7), [5, 6], 1⟩

/-- A writer state with the two bytes `[7, 9]` buffered. -/
def c3St : WriterState := ⟨none, [7, 9], 2⟩

/-- A sink that accepts exactly one byte of any write, with no error. -/
def c3Resp : List ℕ → ℕ × Option GoErr := fun _ => (1, none)

/-- A sink that accepts every byte of any write. -/
def c3RespFull : List ℕ → ℕ × Option GoErr := fun l => (l.length, none)

/-! ## Supporting lemmas -/

theorem wrap16_eq_of_range (z : ℤ) (h1 : -32768 ≤ z) (h2 : z < 32768) : wrap16 z = z := by
  unfold wrap16; omega

theorem toSigned16_range (v : ℕ) : -32768 ≤ toSigned16 v ∧ toSigned16 v < 32768 := by
  unfold toSigned16
  have : v % 65536 < 65536 := Nat.mod_lt _ (by norm_num)
  split <;> omega

theorem bytesToSamples_length : ∀ (p : List ℕ), (bytesToSamples p).length = p.length / 2
  | [] => rfl
  | [_] => by simp [bytesToSamples]
  | _ :: _ :: rest => by
    simp only [bytesToSamples, List.length_cons, bytesToSamples_length rest]
    omega

theorem bytesToSamples_mem_range :
    ∀ (p : List ℕ), ∀ s ∈ bytesToSamples p, -32768 ≤ s ∧ s < 32768
  | [] => by simp [bytesToSamples]
  | [_] => by simp [bytesToSamples]
  | lo :: hi :: rest => by
    intro s hs
    simp only [bytesToSamples, List.mem_cons] at hs
    rcases hs with h | h
    · subst h; exact toSigned16_range _
    · exact bytesToSamples_mem_range rest s h

theorem toSigned16_emod (v : ℕ) (h : v < 65536) : toSigned16 v % 65536 = (v : ℤ) := by
  unfold toSigned16
  rw [Nat.mod_eq_of_lt h]
  split <;> omega

theorem sampleToBytes_decode (lo hi : ℕ) (hlo : lo < 256) (hhi : hi < 256) :
    sampleToBytes (toSigned16 (lo + 256 * hi)) = [lo, hi] := by
  unfold sampleToBytes
  rw [toSigned16_emod _ (by omega), Int.toNat_natCast]
  simp only [List.cons.injEq, and_true]
  exact ⟨by omega, by omega⟩

theorem samplesToBytes_bytesToSamples :
    ∀ (p : List ℕ), (∀ b ∈ p, b < 256) → p.length % 2 = 0 →
      samplesToBytes (bytesToSamples p) = p
  | [] => by intro _ _; rfl
  | [_] => by intro _ h; simp at h
  | lo :: hi :: rest => by
    intro hb hl
    have hrec : samplesToBytes (bytesToSamples rest) = rest :=
      samplesToBytes_bytesToSamples rest (fun b hm => hb b (by simp [hm]))
        (by simp only [List.length_cons] at hl; omega)
    simp only [bytesToSamples, samplesToBytes, List.flatMap_cons] at *
    rw [hrec, sampleToBytes_decode lo hi (hb lo (by simp)) (hb hi (by simp))]
    rfl

theorem symPass_length (ki : ℤ) (i : ℕ) (ai : List ℤ) :
    (symPass ki i ai).length = ai.length := by
  unfold symPass
  generalize List.range' 1 (i / 2) = l
  induction l generalizing ai with
  | nil => rfl
  | cons j t ih => simp only [List.foldl_cons]; rw [ih]; simp

theorem foldl_durbinStep_error (R : List ℤ) (e : WhitenFault) :
    ∀ (l : List ℕ), l.foldl (durbinStep R) (.error e) = .error e := by
  intro l
  induction l with
  | nil => rfl
  | cons j t ih => simpa [durbinStep] using ih

theorem foldl_durbinStep_ok (R : List ℤ) :
    ∀ (l : List ℕ) (ai : List ℤ) (E : ℤ), (∀ i ∈ l, i < ai.length) →
      ∃ ai2 E2, l.foldl (durbinStep R) (.ok (ai, E)) = .ok (ai2, E2) ∧
        ai2.length = ai.length := by
  intro l
  induction l with
  | nil => exact fun ai E _ => ⟨ai, E, rfl, rfl⟩
  | cons j t ih =>
    intro ai E hm
    have hj : j < ai.length := hm j (by simp)
    simp only [List.foldl_cons, durbinStep, hj, if_pos]
    obtain ⟨ai2, E2, heq, hlen⟩ :=
      ih (symPass _ j (ai.set j _)) _
        (fun i hi => by rw [symPass_length, List.length_set]; exact hm i (by simp [hi]))
    exact ⟨ai2, E2, heq, by rw [hlen, symPass_length, List.length_set]⟩

theorem durbinGo_isOk (R : List ℤ) (bs : ℕ) (h : 41 ≤ bs) : (durbinGo R bs).isOk = true := by
  unfold durbinGo
  obtain ⟨ai2, E2, heq, -⟩ :=
    foldl_durbinStep_ok R (List.range' 1 lpcOrder) (List.replicate bs 0) (R.getD 0 0)
      (fun i hi => by
        rw [List.length_replicate]
        have := List.mem_range'_1.mp hi
        unfold lpcOrder at this
        omega)
  rw [heq]
  rfl

theorem foldl_durbinStep_err (R : List ℤ) (L : ℕ) (hL : L ≤ lpcOrder) :
    ∀ (cnt s : ℕ) (ai : List ℤ) (E : ℤ), ai.length = L → 1 ≤ s → s ≤ max 1 L →
      max 1 L < s + cnt →
      (List.range' s cnt).foldl (durbinStep R) (.ok (ai, E)) =
        .error (.durbinCoeff (max 1 L)) := by
  intro cnt
  induction cnt with
  | zero => intro s ai E _ _ h1 h2; omega
  | succ cnt ih =>
    intro s ai E hlen hs1 hs2 hcnt
    rw [List.range'_succ, List.foldl_cons]
    by_cases hlt : s < ai.length
    · have : s + 1 ≤ max 1 L := by omega
      simp only [durbinStep, hlt, if_pos]
      exact ih (s + 1)
        (symPass _ s (ai.set s _)) _
        (by rw [symPass_length, List.length_set]; exact hlen) (by omega) this (by omega)
    · have hse : s = max 1 L := by omega
      simp only [durbinStep, hlt, if_neg, if_false]
      rw [foldl_durbinStep_error, hse]

theorem durbinGo_err (R : List ℤ) (bs : ℕ) (h : bs ≤ 40) :
    durbinGo R bs = .error (.durbinCoeff (max 1 bs)) := by
  unfold durbinGo
  rw [foldl_durbinStep_err R bs (by unfold lpcOrder; omega) lpcOrder 1
    (List.replicate bs 0) (R.getD 0 0) (by simp) le_rfl (by omega)
    (by unfold lpcOrder; omega)]
  rfl

theorem whitenerCompute_isOk (X : List ℤ) (p : List ℕ) (h : 82 ≤ p.length) :
    (whitenerCompute X p).isOk = true := by
  unfold whitenerCompute
  have hbs : 41 ≤ (bytesToSamples p).length := by rw [bytesToSamples_length]; omega
  have hok := durbinGo_isOk (rNums (bytesToSamples p)) (bytesToSamples p).length hbs
  cases hd : durbinGo (rNums (bytesToSamples p)) (bytesToSamples p).length with
  | error e => rw [hd] at hok; simp [Except.isOk, Except.toBool] at hok
  | ok ai =>
    unfold saveTail
    simp [hbs, Except.isOk, Except.toBool]

theorem whitenerCompute_err (X : List ℤ) (p : List ℕ) (h : p.length < 82) :
    whitenerCompute X p = .error (.durbinCoeff (max 1 (p.length / 2))) := by
  unfold whitenerCompute
  have hbs : (bytesToSamples p).length ≤ 40 := by rw [bytesToSamples_length]; omega
  rw [durbinGo_err _ _ hbs, bytesToSamples_length]

/-! ## Claim C4 -/

/-- Claim C4: the smoothed autocorrelation entry `R[0]` is seeded at the
positive epsilon `0.001` and, after the smoothed update
`R[0] = alpha·(sum - R[0])`, is never exactly zero on any block — the
wrapped products make `sum` an integer, so `sum - 0.001` cannot vanish;
hence the division by `E = R[0]` at the first Durbin step is never a
division by zero.  The last conjunct restates this for the scaled
numerator `rNum`, the value the recursion actually starts `E` from. -/
theorem c4_r0_seeded_never_zero :
    rInit 0 = 1 / 1000
  ∧ 0 < rInit 0
  ∧ (∀ d : List ℤ, rSmoothed d 0 = (rNum d 0 : ℚ) / 8000)
  ∧ (∀ d : List ℤ, rSmoothed d 0 ≠ 0)
  ∧ (∀ d : List ℤ, rNum d 0 ≠ 0) := by
  have hnum : ∀ d : List ℤ, rNum d 0 ≠ 0 := by
    intro d h
    simp only [rNum, if_pos] at h
    omega
  have heq : ∀ d : List ℤ, rSmoothed d 0 = (rNum d 0 : ℚ) / 8000 := by
    intro d
    simp only [rSmoothed, rNum, rInit, if_pos]
    push_cast
    ring
  refine ⟨by simp [rInit], by simp [rInit], heq, ?_, hnum⟩
  intro d h
  rw [heq d, div_eq_zero_iff] at h
  rcases h with h | h
  · exact hnum d (by exact_mod_cast h)
  · norm_num at h

/-! ## Claim C6 -/

/-- Claim C6: the autocorrelation accumulated by the whitening transform
does not equal the exact mathematical sum `Σ sample[j]·sample[j-i]` — the
Go `int16` product wraps.  On the block `[256, 256]` at lag 0 the code
accumulates `wrap16(256·256) + wrap16(256·256) = 0`, while the exact sum
is `131072`. -/
theorem c6_autocorr_wraparound :
    autocorrSum c6Samples 0 = 0
  ∧ autocorrExact c6Samples 0 = 131072
  ∧ autocorrSum c6Samples 0 ≠ autocorrExact c6Samples 0 := by decide

/-! ## Claim C7 -/

/-- Claim C7: `Fingerprinter.Compute` returns exactly its input bytes as
the synchronous result; the decoded samples are handed to the spawned
emission task (the second component of the embedding). -/
theorem c7_fingerprint_passthrough (p : List ℕ) : (fingerprinterCompute p).1 = p := rfl

/-! ## Claim C10 -/

/-- Claim C10, amended: `Whitener.Compute` is fault-free exactly on blocks
of at least 41 samples (82 bytes); on any shorter block the first
out-of-range slice access is Durbin's coefficient write `ai[i]` at
`i = max 1 blockSize` — not the tail-saving loop's negative index, which
is never reached. -/
theorem c10_compute_total_iff (X : List ℤ) (p : List ℕ) :
    (82 ≤ p.length → (whitenerCompute X p).isOk = true)
  ∧ (p.length < 82 →
      whitenerCompute X p = .error (.durbinCoeff (max 1 (p.length / 2)))) :=
  ⟨whitenerCompute_isOk X p, whitenerCompute_err X p⟩

/-- Claim C10, witness: the amended totality theorem evaluated at an
82-byte zero block (fault-free) and at a one-sample block (faulting at
Durbin's write of `ai[1]`). -/
theorem c10_compute_total_iff_witness :
    (whitenerCompute initialX (List.replicate 82 0)).isOk = true
  ∧ whitenerCompute initialX [1, 0] = .error (.durbinCoeff 1) := by
  constructor
  · exact (c10_compute_total_iff initialX (List.replicate 82 0)).1 (by decide)
  · have h := (c10_compute_total_iff initialX [1, 0]).2 (by decide)
    simpa using h

/-- Claim C10, counterexample: on a non-empty block of fewer than 41
samples the fault is Durbin's out-of-range coefficient write, not the
negative index of the tail-saving step the claim names. -/
theorem c10_fault_site_is_durbin :
    whitenerCompute initialX [1, 0] = .error (.durbinCoeff 1)
  ∧ WhitenFault.durbinCoeff 1 ≠ WhitenFault.saveTailNeg := by decide

/-! ## Claim C5 -/

set_option maxRecDepth 1000000 in
/-- Claim C5, counterexample: a block on which the Durbin prediction
error `E` reaches exactly zero (`k₁ = 1`, so `E = (1-1)·E = 0`), yet
`Whitener.Compute` neither fails the block nor clamps — it returns a
normally encoded output. -/
theorem c5_zero_error_unguarded :
    durbinDivZero (rNums c5Samples) c5Samples.length = true
  ∧ (whitenerCompute initialX c5Bytes).isOk = true := by decide

/-- Claim C5, amended: the Durbin recursion of `Whitener.Compute` has no
degeneracy guard at all — every block of at least 82 bytes is processed
to a normal output, whether or not `E` reaches zero, the divisions by a
zero `E` being left unguarded. -/
theorem c5_compute_never_fails (X : List ℤ) (p : List ℕ) (h : 82 ≤ p.length) :
    (whitenerCompute X p).isOk = true :=
  whitenerCompute_isOk X p h

/-- Claim C5, witness: the no-failure theorem evaluated at the very block
on which `E` reaches zero. -/
theorem c5_compute_never_fails_witness :
    82 ≤ c5Bytes.length ∧ (whitenerCompute initialX c5Bytes).isOk = true :=
  ⟨by decide, c5_compute_never_fails initialX c5Bytes (by decide)⟩

theorem getD_zero_of_all (l : List ℤ) (hz : ∀ x ∈ l, x = 0) (n : ℕ) : l.getD n 0 = 0 := by
  by_cases h : n < l.length
  · rw [List.getD_eq_getElem l 0 h]
    exact hz _ (List.getElem_mem h)
  · rw [List.getD_eq_default l 0 (by omega)]

theorem getD_range (d : List ℤ) (hd : ∀ s ∈ d, -32768 ≤ s ∧ s < 32768) (n : ℕ) :
    -32768 ≤ d.getD n 0 ∧ d.getD n 0 < 32768 := by
  by_cases h : n < d.length
  · rw [List.getD_eq_getElem d 0 h]
    exact hd _ (List.getElem_mem h)
  · rw [List.getD_eq_default d 0 (by omega)]
    norm_num

theorem foldl_sub16_id (ai : List ℤ) (hz : ∀ x ∈ ai, x = 0) (g : ℕ → ℤ) :
    ∀ (l : List ℕ) (a : ℤ), -32768 ≤ a → a < 32768 →
      l.foldl (fun acc j => sub16 acc (mul16 (ai.getD j 0) (g j))) a = a := by
  intro l
  induction l with
  | nil => intro a _ _; rfl
  | cons j t ih =>
    intro a h1 h2
    have hstep : sub16 a (mul16 (ai.getD j 0) (g j)) = a := by
      rw [getD_zero_of_all ai hz j]
      show wrap16 (a - wrap16 (0 * g j)) = a
      rw [zero_mul]
      show wrap16 (a - 0) = a
      rw [sub_zero]
      exact wrap16_eq_of_range a h1 h2
    rw [List.foldl_cons, hstep]
    exact ih a h1 h2

theorem firOut_id (ai X d : List ℤ) (hz : ∀ x ∈ ai, x = 0)
    (hd : ∀ s ∈ d, -32768 ≤ s ∧ s < 32768) (i : ℕ) :
    firOut ai X d i = d.getD i 0 := by
  unfold firOut
  obtain ⟨h1, h2⟩ := getD_range d hd i
  rw [foldl_sub16_id ai hz _ _ _ h1 h2, foldl_sub16_id ai hz _ _ _ h1 h2]

theorem firAll_id (ai X d : List ℤ) (hz : ∀ x ∈ ai, x = 0)
    (hd : ∀ s ∈ d, -32768 ≤ s ∧ s < 32768) :
    firAll ai X d = d := by
  apply List.ext_getElem
  · simp [firAll]
  · intro n h1 h2
    simp only [firAll, List.getElem_map, List.getElem_range]
    rw [firOut_id ai X d hz hd]
    rw [List.getD_eq_getElem d 0 h2]

theorem whitenerCompute_ok_zero (X : List ℤ) (p : List ℕ)
    (hlen : 82 ≤ p.length) (hb : ∀ b ∈ p, b < 256) (he : p.length % 2 = 0)
    (hz : zeroCoeffs (durbinOf p)) :
    whitenerCompute X p =
      .ok (p, (bytesToSamples p).drop ((bytesToSamples p).length - 41)) := by
  unfold whitenerCompute
  have hbs : 41 ≤ (bytesToSamples p).length := by rw [bytesToSamples_length]; omega
  have hok := durbinGo_isOk (rNums (bytesToSamples p)) (bytesToSamples p).length hbs
  cases hd : durbinGo (rNums (bytesToSamples p)) (bytesToSamples p).length with
  | error e => rw [hd] at hok; simp [Except.isOk, Except.toBool] at hok
  | ok ai =>
    have hai : durbinOf p = ai := by unfold durbinOf; rw [hd]; rfl
    rw [hai] at hz
    unfold saveTail
    rw [if_pos hbs]
    dsimp only
    rw [firAll_id ai X _ hz (bytesToSamples_mem_range p)]
    rw [samplesToBytes_bytesToSamples p hb he]

/-- Claim C1, amended: splitting a stream into sequential blocks through
one stateful `Whitener` reproduces the single-call output in the case
where every call's Durbin recursion yields an all-zero coefficient vector
— then both pipelines return the input stream unchanged.  (In general the
two disagree: each `Compute` call reseeds `R` and recomputes the
coefficients from its own block alone; see the counterexample.) -/
theorem c1_continuity_zero_coeffs (p1 p2 : List ℕ)
    (hl1 : 82 ≤ p1.length) (hl2 : 82 ≤ p2.length)
    (hb1 : ∀ b ∈ p1, b < 256) (hb2 : ∀ b ∈ p2, b < 256)
    (he1 : p1.length % 2 = 0) (he2 : p2.length % 2 = 0)
    (hzw : zeroCoeffs (durbinOf (p1 ++ p2)))
    (hz1 : zeroCoeffs (durbinOf p1)) (hz2 : zeroCoeffs (durbinOf p2)) :
    singleOutput (p1 ++ p2) = some (p1 ++ p2)
  ∧ splitOutput p1 p2 = some (p1 ++ p2) := by
  constructor
  · unfold singleOutput
    rw [whitenerCompute_ok_zero initialX (p1 ++ p2)
      (by rw [List.length_append]; omega)
      (by intro b hbm; rcases List.mem_append.mp hbm with h | h
          exacts [hb1 b h, hb2 b h])
      (by rw [List.length_append]; omega) hzw]
    rfl
  · unfold splitOutput
    rw [whitenerCompute_ok_zero initialX p1 hl1 hb1 he1 hz1]
    dsimp only
    rw [whitenerCompute_ok_zero _ p2 hl2 hb2 he2 hz2]

set_option maxRecDepth 1000000 in
/-- Claim C1, witness: the amended theorem evaluated on two 82-byte zero
blocks, whose Durbin coefficients are all zero. -/
theorem c1_continuity_zero_coeffs_witness :
    singleOutput (List.replicate 82 0 ++ List.replicate 82 0) =
      some (List.replicate 82 0 ++ List.replicate 82 0)
  ∧ splitOutput (List.replicate 82 0) (List.replicate 82 0) =
      some (List.replicate 82 0 ++ List.replicate 82 0) :=
  c1_continuity_zero_coeffs (List.replicate 82 0) (List.replicate 82 0)
    (by decide) (by decide) (by decide) (by decide) (by decide) (by decide)
    (by decide) (by decide) (by decide)

set_option maxRecDepth 1000000 in
set_option maxHeartbeats 4000000 in
/-- Claim C1, counterexample: two even 82-byte blocks (the claim's
minimum per-call size, `2·(order+1)` bytes) on which whitening the whole
stream in one `Compute` call and whitening it split through one stateful
`Whitener` (the saved tail `X` carried into the second call) both
succeed yet produce different output bytes: the single call computes
nonzero filter coefficients from the cross-boundary autocorrelation and
rewrites sample 41, while each split call's own block yields zero
coefficients and passes its input through. -/
theorem c1_single_differs_from_split :
    c1BlockA.length = 82 ∧ c1BlockB.length = 82
  ∧ c1BlockA.length % 2 = 0 ∧ c1BlockB.length % 2 = 0
  ∧ (singleOutput (c1BlockA ++ c1BlockB)).isSome = true
  ∧ (splitOutput c1BlockA c1BlockB).isSome = true
  ∧ singleOutput (c1BlockA ++ c1BlockB) ≠ splitOutput c1BlockA c1BlockB := by
  decide

theorem numFramesOf_of_ge (n : ℕ) (h : 127 ≤ n) :
    numFramesOf n = (((n - 127 : ℕ) / 8 : ℕ) : ℤ) := by
  unfold numFramesOf
  have h2 : (n : ℤ) - 128 + 1 = ((n - 127 : ℕ) : ℤ) := by omega
  rw [h2]
  rfl

theorem numFramesOf_of_lt (n : ℕ) (h : n < 127) :
    numFramesOf n = -((((127 - n : ℕ) / 8 : ℕ) : ℤ)) := by
  unfold numFramesOf
  have h2 : (n : ℤ) - 128 + 1 = -((127 - n : ℕ) : ℤ) := by omega
  rw [h2, Int.neg_tdiv]
  congr 1

/-- Claim C9, amended. -/
theorem c9_subband_failure_boundary (mr mi : ℕ → ℕ → ℚ) (samples : List ℤ) :
    (135 ≤ samples.length → (subbandAnalysis mr mi samples).isOk = true)
  ∧ (120 ≤ samples.length → samples.length ≤ 134 →
      subbandAnalysis mr mi samples = .error .noFrames)
  ∧ (samples.length ≤ 119 → subbandAnalysis mr mi samples = .error .negFrames) := by
  refine ⟨?_, ?_, ?_⟩
  · intro h
    unfold subbandAnalysis
    have h1 : numFramesOf samples.length = (((samples.length - 127 : ℕ) / 8 : ℕ) : ℤ) :=
      numFramesOf_of_ge _ (by omega)
    have h2 : ¬ numFramesOf samples.length = 0 := by rw [h1]; omega
    have h3 : ¬ numFramesOf samples.length < 0 := by rw [h1]; omega
    simp only [h2, h3, if_neg, if_false, dite_false]
    rfl
  · intro h1 h2
    unfold subbandAnalysis
    by_cases hc : 127 ≤ samples.length
    · have he : numFramesOf samples.length = (((samples.length - 127 : ℕ) / 8 : ℕ) : ℤ) :=
        numFramesOf_of_ge _ hc
      have hz : numFramesOf samples.length = 0 := by rw [he]; omega
      simp [hz]
    · have he : numFramesOf samples.length = -((((127 - samples.length : ℕ) / 8 : ℕ) : ℤ)) :=
        numFramesOf_of_lt _ (by omega)
      have hz : numFramesOf samples.length = 0 := by rw [he]; omega
      simp [hz]
  · intro h
    unfold subbandAnalysis
    have he : numFramesOf samples.length = -((((127 - samples.length : ℕ) / 8 : ℕ) : ℤ)) :=
      numFramesOf_of_lt _ (by omega)
    have hz : ¬ numFramesOf samples.length = 0 := by rw [he]; omega
    have hn : numFramesOf samples.length < 0 := by rw [he]; omega
    simp [hz, hn]

/-- Claim C9, witness: the boundary theorem evaluated at 135-, 130- and
100-sample zero blocks. -/
theorem c9_subband_failure_boundary_witness :
    (subbandAnalysis (fun _ _ => 0) (fun _ _ => 0) (List.replicate 135 0)).isOk = true
  ∧ subbandAnalysis (fun _ _ => 0) (fun _ _ => 0) (List.replicate 130 0) = .error .noFrames
  ∧ subbandAnalysis (fun _ _ => 0) (fun _ _ => 0) (List.replicate 100 0) = .error .negFrames :=
  ⟨(c9_subband_failure_boundary _ _ _).1 (by simp),
   (c9_subband_failure_boundary _ _ _).2.1 (by simp) (by simp),
   (c9_subband_failure_boundary _ _ _).2.2 (by simp)⟩

/-- Claim C9, counterexample: a 100-sample block fails hard although its
frame count is `-3`, not zero — the failure is the negative-length
allocation panic, not the `numFrames == 0` guard, so "fails exactly when
numFrames = 0, i.e. for every block shorter than 135 samples" misstates
both equivalences. -/
theorem c9_negative_frames_fail :
    subbandAnalysis (fun _ _ => 0) (fun _ _ => 0) (List.replicate 100 0) = .error .negFrames
  ∧ numFramesOf 100 = -3
  ∧ numFramesOf 100 ≠ 0
  ∧ SubbandFault.negFrames ≠ SubbandFault.noFrames := by decide


theorem codesForOnset_length (out : ℕ → ℕ → ℚ) (band onset count : ℕ) :
    (codesForOnset out band onset count).length = 6 := by
  simp [codesForOnset]

theorem onsetCodes_length (out : ℕ → ℕ → ℚ) (band count : ℕ) :
    (onsetCodes out band count).length = (count - 2) * 6 := by
  unfold onsetCodes
  rw [List.length_flatMap]
  simp only [Function.comp_def, codesForOnset_length]
  simp [List.map_const, List.sum_replicate, smul_eq_mul, Nat.mul_comm]

/-- Claim C8. -/
theorem c8_code_emission_structure (counter : ℕ → ℕ) (out : ℕ → ℕ → ℚ) (band : ℕ) :
    emissionAll counter out = (List.range 8).flatMap (bandCodes counter out)
  ∧ (counter band ≤ 2 → bandCodes counter out band = [])
  ∧ (2 < counter band →
      bandCodes counter out band =
        (List.range (counter band - 2)).flatMap
          (fun onset => codesForOnset out band onset (counter band))
      ∧ (bandCodes counter out band).length = (counter band - 2) * 6
      ∧ (∀ onset, onset < counter band - 2 →
          filledPairCount (counter band) onset ≤ 6
          ∧ (onset + 3 = counter band ∨ onset + 4 = counter band →
              filledPairCount (counter band) onset < 6)
          ∧ (onset + 4 < counter band →
              filledPairCount (counter band) onset = 6))) := by
  refine ⟨rfl, ?_, ?_⟩
  · intro h
    unfold bandCodes
    rw [if_neg (by omega)]
  · intro h
    have hb : bandCodes counter out band = onsetCodes out band (counter band) := by
      unfold bandCodes
      rw [if_pos h]
    refine ⟨hb, by rw [hb, onsetCodes_length], ?_⟩
    intro onset honset
    unfold filledPairCount nhashesFor
    refine ⟨?_, ?_, ?_⟩
    · split <;> [omega; skip]
      split <;> omega
    · intro hc
      rcases hc with hc | hc
      · rw [if_pos (by omega)]
        omega
      · rw [if_neg (by omega), if_pos (by omega)]
        omega
    · intro hc
      rw [if_neg (by omega), if_neg (by omega)]

/-- Claim C8, witness: a band with five onsets — 3 covered onsets, 18
emitted codes, and 6/3/1 constructed pair features as the onset nears the
tail — and a band with no onsets, which emits nothing. -/
theorem c8_code_emission_structure_witness :
    bandCodes c8Counter c8Out 1 = []
  ∧ (bandCodes c8Counter c8Out 0).length = 18
  ∧ filledPairCount 5 0 = 6
  ∧ filledPairCount 5 1 < 6
  ∧ filledPairCount 5 2 < 6 := by
  refine ⟨(c8_code_emission_structure c8Counter c8Out 1).2.1 (by decide), ?_, ?_, ?_, ?_⟩
  · have h := ((c8_code_emission_structure c8Counter c8Out 0).2.2 (by decide)).2.1
    simpa [c8Counter] using h
  · have h := (((c8_code_emission_structure c8Counter c8Out 0).2.2 (by decide)).2.2 0
      (by decide)).2.2
    simpa [c8Counter] using h (by decide)
  · have h := (((c8_code_emission_structure c8Counter c8Out 0).2.2 (by decide)).2.2 1
      (by decide)).2.1
    simpa [c8Counter] using h (by decide)
  · have h := (((c8_code_emission_structure c8Counter c8Out 0).2.2 (by decide)).2.2 2
      (by decide)).2.1
    simpa [c8Counter] using h (by decide)

theorem flushGo_of_err (dsp : List ℕ → List ℕ) (resp : List ℕ → ℕ × Option GoErr)
    (st : WriterState) (e : GoErr) (h : st.err = some e) :
    flushGo dsp resp st = (st, some e, []) := by
  unfold flushGo
  rw [h]

theorem writeExit_of_err (st : WriterState) (p : List ℕ) (e : GoErr) (h : st.err = some e) :
    writeExit st p = (st, 0, some e, []) := by
  unfold writeExit
  rw [h]

theorem writeGo_of_err (dsp : List ℕ → List ℕ) (resp : List ℕ → ℕ × Option GoErr)
    (fuel : ℕ) (st : WriterState) (p : List ℕ) (e : GoErr) (h : st.err = some e) :
    writeGo dsp resp fuel st p = (st, 0, some e, []) := by
  have hc : ¬ (st.buf.length - st.n < p.length ∧ st.err = none) := by
    rintro ⟨-, h2⟩; rw [h] at h2; cases h2
  cases fuel with
  | zero =>
    unfold writeGo
    rw [if_neg hc]
    exact writeExit_of_err st p e h
  | succ fuel =>
    unfold writeGo
    rw [if_neg hc]
    exact writeExit_of_err st p e h

theorem flushGo_err_closed (dsp : List ℕ → List ℕ) (resp : List ℕ → ℕ × Option GoErr)
    (st : WriterState) (e : GoErr) (h : (flushGo dsp resp st).2.1 = some e) :
    (flushGo dsp resp st).1.err = some e := by
  cases hse : st.err with
  | some e0 => simp only [flushGo, hse] at h ⊢; exact h
  | none =>
    simp only [flushGo, hse] at h ⊢
    by_cases hn : st.n = 0
    · rw [if_pos hn] at h
      simp at h
    · rw [if_neg hn] at h ⊢
      set kr := resp (dsp (List.take st.n st.buf)) with hkr
      cases hke : kr.2 with
      | some e1 =>
        simp only [hke] at h ⊢
        rw [if_neg (by simp)] at h ⊢
        dsimp only at h ⊢
        exact h
      | none =>
        simp only [hke] at h ⊢
        by_cases hk : kr.1 < st.n
        · rw [if_pos ⟨hk, trivial⟩] at h ⊢
          dsimp only at h ⊢
          exact h
        · rw [if_neg (by rintro ⟨h1, -⟩; exact hk h1)] at h
          dsimp only at h
          simp at h

theorem writeExit_err_closed (st : WriterState) (p : List ℕ) (e : GoErr)
    (h : (writeExit st p).2.2.1 = some e) : (writeExit st p).1.err = some e := by
  cases hse : st.err with
  | some e0 => simp only [writeExit, hse] at h ⊢; exact h
  | none =>
    simp only [writeExit, hse] at h
    simp at h

theorem writeGo_err_closed (dsp : List ℕ → List ℕ) (resp : List ℕ → ℕ × Option GoErr) :
    ∀ (fuel : ℕ) (st : WriterState) (p : List ℕ) (e : GoErr),
      (writeGo dsp resp fuel st p).2.2.1 = some e →
      (writeGo dsp resp fuel st p).1.err = some e := by
  intro fuel
  induction fuel with
  | zero =>
    intro st p e h
    simp only [writeGo] at h ⊢
    by_cases hc : st.buf.length - st.n < p.length ∧ st.err = none
    · rw [if_pos hc] at h
      simp at h
    · rw [if_neg hc] at h ⊢
      exact writeExit_err_closed st p e h
  | succ fuel ih =>
    intro st p e h
    simp only [writeGo] at h ⊢
    by_cases hc : st.buf.length - st.n < p.length ∧ st.err = none
    · rw [if_pos hc] at h ⊢
      by_cases hn : st.n = 0
      · rw [if_pos hn] at h ⊢
        dsimp only at h ⊢
        exact ih _ _ _ h
      · rw [if_neg hn] at h ⊢
        dsimp only at h ⊢
        exact ih _ _ _ h
    · rw [if_neg hc] at h ⊢
      exact writeExit_err_closed st p e h

/-- Claim C2: the first error from `Write`/`Flush` is sticky.  Any error
a `Write` or `Flush` call returns is recorded in the writer state, and on
a state carrying a recorded error every later `Write` and `Flush` —
whatever the transform, sink behavior, payload or fuel — returns that
same error, leaves the state untouched, and performs no I/O on the sink
(the trace of sink writes is empty). -/
theorem c2_sticky_error (dsp dsp2 : List ℕ → List ℕ)
    (resp resp2 : List ℕ → ℕ × Option GoErr) (fuel fuel2 : ℕ)
    (st : WriterState) (p q : List ℕ) (e : GoErr) :
    ((writeGo dsp resp fuel st p).2.2.1 = some e →
      (writeGo dsp resp fuel st p).1.err = some e)
  ∧ ((flushGo dsp resp st).2.1 = some e → (flushGo dsp resp st).1.err = some e)
  ∧ (st.err = some e →
      writeGo dsp2 resp2 fuel2 st q = (st, 0, some e, [])
    ∧ flushGo dsp2 resp2 st = (st, some e, [])) :=
  ⟨writeGo_err_closed dsp resp fuel st p e,
   flushGo_err_closed dsp resp st e,
   fun h => ⟨writeGo_of_err dsp2 resp2 fuel2 st q e h, flushGo_of_err dsp2 resp2 st e h⟩⟩




/-- Claim C2, witness: a sink that rejects the write with `ioFault 7`;
the failed `Write` and `Flush` record the error, and on the recorded
state both operations return it with an empty sink trace. -/
theorem c2_sticky_error_witness :
    (writeGo id c2Resp 1 c2St [9, 9, 9]).1.err = some (.ioFault 7)
  ∧ (flushGo id c2Resp c2St).1.err = some (.ioFault 7)
  ∧ writeGo id c2Resp 1 c2StErr [9] = (c2StErr, 0, some (.ioFault 7), [])
  ∧ flushGo id c2Resp c2StErr = (c2StErr, some (.ioFault 7), []) := by
  refine ⟨(c2_sticky_error id id c2Resp c2Resp 1 1 c2St [9, 9, 9] [9] (.ioFault 7)).1
      (by decide),
    (c2_sticky_error id id c2Resp c2Resp 1 1 c2St [9, 9, 9] [9] (.ioFault 7)).2.1
      (by decide), ?_, ?_⟩
  · exact ((c2_sticky_error id id c2Resp c2Resp 1 1 c2StErr [9, 9, 9] [9]
      (.ioFault 7)).2.2 (by decide)).1
  · exact ((c2_sticky_error id id c2Resp c2Resp 1 1 c2StErr [9, 9, 9] [9]
      (.ioFault 7)).2.2 (by decide)).2

theorem flushGo_short_write (dsp : List ℕ → List ℕ) (resp : List ℕ → ℕ × Option GoErr)
    (st : WriterState) (k : ℕ)
    (h0 : st.err = none) (h1 : 0 < st.n) (hn : st.n ≤ st.buf.length)
    (hr : resp (dsp (st.buf.take st.n)) = (k, none)) (hk : k < st.n) :
    flushGo dsp resp st =
      (⟨some .shortWrite,
        if 0 < k ∧ k < st.n
          then (st.buf.drop k).take (st.n - k) ++ st.buf.drop (st.n - k)
          else st.buf,
        st.n - k⟩, some .shortWrite, [dsp (st.buf.take st.n)]) := by
  simp only [flushGo, h0]
  rw [if_neg (by omega)]
  rw [hr]
  dsimp only
  rw [if_pos ⟨hk, rfl⟩]

theorem shifted_buf_take (buf : List ℕ) (n k : ℕ) (hn : n ≤ buf.length) (hk : k < n) :
    (if 0 < k ∧ k < n
      then (buf.drop k).take (n - k) ++ buf.drop (n - k)
      else buf).take (n - k) = (buf.take n).drop k := by
  by_cases h : 0 < k ∧ k < n
  · rw [if_pos h]
    have hlen : ((buf.drop k).take (n - k)).length = n - k := by
      rw [List.length_take, List.length_drop]
      omega
    rw [List.take_append_eq_append_take, hlen]
    rw [List.take_take]
    simp only [Nat.sub_self, List.take_zero, List.append_nil, min_self]
    rw [List.drop_take]
  · rw [if_neg h]
    have hk0 : k = 0 := by omega
    subst hk0
    simp

/-- Claim C3, amended: when a flush of `n` buffered bytes sees the sink
accept `k < n` bytes without error, the flush reports
`io.ErrShortWrite`, and the unacknowledged remainder kept at the
buffer's front equals the original `bytes[k:n]`; but the error is also
recorded sticky, so every later flush — even against a sink that would
accept everything — returns the short-write error and performs no I/O:
the remainder is never re-delivered. -/
theorem c3_short_write_recovery (dsp : List ℕ → List ℕ)
    (resp : List ℕ → ℕ × Option GoErr) (st : WriterState) (k : ℕ)
    (h0 : st.err = none) (h1 : 0 < st.n) (hn : st.n ≤ st.buf.length)
    (hr : resp (dsp (st.buf.take st.n)) = (k, none)) (hk : k < st.n) :
    (flushGo dsp resp st).2.1 = some .shortWrite
  ∧ (flushGo dsp resp st).2.2 = [dsp (st.buf.take st.n)]
  ∧ (flushGo dsp resp st).1.err = some .shortWrite
  ∧ (flushGo dsp resp st).1.n = st.n - k
  ∧ (flushGo dsp resp st).1.buf.take (st.n - k) = (st.buf.take st.n).drop k
  ∧ (∀ dsp2 resp2,
      flushGo dsp2 resp2 (flushGo dsp resp st).1 =
        ((flushGo dsp resp st).1, some .shortWrite, [])) := by
  rw [flushGo_short_write dsp resp st k h0 h1 hn hr hk]
  refine ⟨rfl, rfl, rfl, rfl, shifted_buf_take st.buf st.n k hn hk, ?_⟩
  intro dsp2 resp2
  exact flushGo_of_err dsp2 resp2 _ _ rfl




/-- Claim C3, witness: buffered `[7, 9]`, sink accepts one byte — the
remainder `[9]` sits at the buffer's front, and no later flush performs
I/O. -/
theorem c3_short_write_recovery_witness :
    (flushGo id c3Resp c3St).2.1 = some .shortWrite
  ∧ (flushGo id c3Resp c3St).1.n = 1
  ∧ (flushGo id c3Resp c3St).1.buf.take 1 = [9]
  ∧ (∀ dsp2 resp2,
      flushGo dsp2 resp2 (flushGo id c3Resp c3St).1 =
        ((flushGo id c3Resp c3St).1, some .shortWrite, [])) := by
  have h := c3_short_write_recovery id c3Resp c3St 1 (by decide) (by decide) (by decide)
    (by decide) (by decide)
  exact ⟨h.1, h.2.2.2.1, by simpa using h.2.2.2.2.1, h.2.2.2.2.2⟩

/-- Claim C3, counterexample: after a short write (sink accepts 1 of 2
bytes) the remainder `[9]` is kept at the buffer's front, but the error
is sticky, so the next flush — even against a sink that would accept
everything — returns the short-write error and writes nothing: the
remainder never appears in any later flush. -/
theorem c3_remainder_never_redelivered :
    flushGo id c3Resp c3St = (⟨some .shortWrite, [9, 9], 1⟩, some .shortWrite, [[7, 9]])
  ∧ flushGo id c3RespFull ⟨some .shortWrite, [9, 9], 1⟩ =
      (⟨some .shortWrite, [9, 9], 1⟩, some .shortWrite, []) := by decide

end Echoprint
